import Mathlib

/-
Verification of the PushDisco audio synthesis pipeline (`generate_audio.py`).

The synthesis core is embedded shallowly over ℚ:

* Python floats become exact rationals.  The handful of `int(...)` conversions
  appearing in the source were checked by hand to be exact under IEEE double
  rounding for the constants involved (e.g. `44100 * 0.15` rounds to exactly
  `6615.0`), so the rational model computes the same sample indices as the
  Python program.
* `np.pi`, `np.sin`, `np.exp` and the stream of draws produced by
  `np.random.normal` are passed explicitly as an oracle structure `Osc`; the
  claims under study never depend on the numeric values of the transcendental
  functions, only on where and how the buffer is written.
* numpy arrays become `List ℚ`; basic-slice assignment keeps numpy's semantics:
  the slice bounds are clamped to the array, and assigning a vector whose
  length differs from the clamped slice length is a broadcast error, modelled
  by `Option`.
* Python `int()` on a float truncates toward zero, modelled by `truncQ`.
-/

namespace PushDisco

/-- Truncation toward zero: the semantics of Python `int()` on a float. -/
def truncQ (q : ℚ) : ℤ := if q < 0 then ⌈q⌉ else ⌊q⌋

/-- Fixed sample rate: `sample_rate = 44100` in `generate_disco_audio`. -/
def sample_rate : ℕ := 44100

/-- Sample count: `num_samples = int(sample_rate * duration)`.  The duration is
an integer (the loops `range(duration * 4)` / `range(duration * 2)` require a
Python `int`), so `sample_rate * duration` is an `int` and `int()` is the
identity. -/
def num_samples (duration : ℕ) : ℕ := sample_rate * duration

/-- Time of sample index `i`, from `t = np.arange(num_samples) / sample_rate`. -/
def tQ (i : ℕ) : ℚ := (i : ℚ) / sample_rate

/-- The time array `t` itself. -/
def tArr (n : ℕ) : List ℚ := (List.range n).map (fun i => tQ i)

/-- Local elapsed time `t[s + k] - t[s]`, the quantity appearing in every
oscillator phase and envelope of the source. -/
def tdiff (s k : ℕ) : ℚ := tQ (s + k) - tQ s

/-- Peak magnitude `np.max(np.abs(audio))` (line 142).  On the empty list this
gives `0` (numpy would raise, but the pipeline's buffer is nonempty). -/
def maxAbs (l : List ℚ) : ℚ := l.foldr (fun x m => max |x| m) 0

/-- Normalization, lines 142-144:
`max_val = np.max(np.abs(audio)); if max_val > 0: audio = audio / max_val * 0.95`. -/
def normalize (l : List ℚ) : List ℚ :=
  if 0 < maxAbs l then l.map (fun x => x / maxAbs l * (19/20)) else l

/-- Quantization of one sample: the value `int(x * 32767)` computed (per
element, before the 16-bit wrap) by `np.int16(audio * 32767)` on line 147. -/
def quantQ (x : ℚ) : ℤ := truncQ (x * 32767)

/-- Wrap an integer into the signed 16-bit range, as the C conversion
underlying `np.int16` does when the value overflows. -/
def wrap16 (z : ℤ) : ℤ := (z + 32768) % 65536 - 32768

/-- The stored 16-bit sample for a float sample `x` (line 147). -/
def int16OfQ (x : ℚ) : ℤ := wrap16 (quantQ x)

/-- The quantized PCM stream `audio_int16 = np.int16(audio * 32767)`. -/
def audio_int16 (l : List ℚ) : List ℤ := l.map int16OfQ

/-- Outcome of the `subprocess.run` invocation of ffmpeg in
`convert_wav_to_mp3` (lines 168-198): the process completed with some exit
status, or the invocation raised (`FileNotFoundError`, `TimeoutExpired` —
caught by the generic `except Exception` — or any other exception). -/
inductive RunOutcome where
  | completed (returncode : ℤ)
  | fileNotFound
  | timedOut
  | otherError
deriving DecidableEq

/-- The transcoder `convert_wav_to_mp3` (lines 160-198): returns the MP3 path
exactly when the encoder exits with status 0; every failure path returns the
WAV path.  All exception paths are caught inside the function, so it is a
total function of the outcome: it never propagates a failure. -/
def convert_wav_to_mp3 (wav_file mp3_file : String) (r : RunOutcome) : String :=
  match r with
  | .completed rc => if rc = 0 then mp3_file else wav_file
  | .fileNotFound => wav_file
  | .timedOut => wav_file
  | .otherError => wav_file

/-! ### The buffer and its write primitive -/

/-- In-place slice addition `audio[s : s + v.length] += v`.  Every use in the
source is guarded so that `s + v.length ≤ audio.length`, where this agrees
with numpy; the definition is total (a too-long `v` is silently cut, which
never happens under the guards). -/
def addVec (l : List ℚ) (s : ℕ) (v : List ℚ) : List ℚ :=
  l.take s ++ List.zipWith (· + ·) ((l.drop s).take v.length) v ++ l.drop (s + v.length)

/-- numpy basic-slice assignment `a[i:j] = v` for `0 ≤ i ≤ j`: the bounds are
clamped to the array length; if the clamped slice length differs from the
length of `v`, numpy raises a broadcast `ValueError`, modelled as `none`. -/
def setSlice (l : List ℚ) (i j : ℕ) (v : List ℚ) : Option (List ℚ) :=
  let iC := min i l.length
  let jC := max iC (min j l.length)
  if v.length = jC - iC then some (l.take iC ++ v ++ l.drop jC) else none

/-- Scalar slice assignment `a[i:] = c` (broadcasting a scalar never fails). -/
def fillFrom (l : List ℚ) (i : ℕ) (c : ℚ) : List ℚ :=
  l.take (min i l.length) ++ List.replicate (l.length - min i l.length) c

/-- `np.linspace(a, b, n)`: `n` evenly spaced points from `a` to `b`
inclusive. -/
def linspaceQ (a b : ℚ) (n : ℕ) : List ℚ :=
  if n = 0 then []
  else if n = 1 then [a]
  else (List.range n).map (fun (k : ℕ) => a + (b - a) * (k : ℚ) / ((n : ℚ) - 1))

/-! ### Oracle for the numeric library -/

/-- Oracle holding the operations the source takes from the numeric library:
`np.pi`, `np.sin`, `np.exp`, and the stream of draws produced over the run by
`np.random.normal(0, 0.1, n)` (`normal j` is the j-th draw of the run; the
mean 0 and deviation 0.1 are parameters of the drawing itself and so are part
of the modelled draw values).  These are floating-point or random at run time;
the embedding passes them explicitly, which in particular makes the hi-hat's
dependence on the ambient random state visible. -/
structure Osc where
  pi : ℚ
  sin : ℚ → ℚ
  exp : ℚ → ℚ
  normal : ℕ → ℚ

/-! ### Percussion voices (lines 35-54) -/

/-- Kick hit start `beat_start = int(i * sample_rate * beat_duration)` with
`beat_duration = 60 / bpm`. -/
def kickStart (bpm i : ℕ) : ℕ :=
  (truncQ ((i : ℚ) * sample_rate * (60 / (bpm : ℚ)))).toNat

/-- Kick hit end `beat_end = int(beat_start + sample_rate * 0.15)`. -/
def kickEnd (bpm i : ℕ) : ℕ :=
  (truncQ ((kickStart bpm i : ℚ) + sample_rate * (3/20))).toNat

/-- Hi-hat start `beat_start = int((i * 2 + 1) * sample_rate * beat_duration)`. -/
def hihatStart (bpm i : ℕ) : ℕ :=
  (truncQ (((i : ℚ) * 2 + 1) * sample_rate * (60 / (bpm : ℚ)))).toNat

/-- Hi-hat end `beat_end = int(beat_start + sample_rate * 0.1)`. -/
def hihatEnd (bpm i : ℕ) : ℕ :=
  (truncQ ((hihatStart bpm i : ℚ) + sample_rate * (1/10))).toNat

/-- The kick loop iterations that actually write (the guard
`beat_end < num_samples` holds), i.e. the kick hits placed in the buffer. -/
def kickHits (duration bpm : ℕ) : List ℕ :=
  (List.range (duration * 4)).filter (fun i => kickEnd bpm i < num_samples duration)

/-- The hi-hat loop iterations that actually write. -/
def hihatHits (duration bpm : ℕ) : List ℕ :=
  (List.range (duration * 2)).filter (fun i => hihatEnd bpm i < num_samples duration)

/-- One kick hit's contribution `0.3 * np.sin(kick_phase) * kick_envelope`
over the local samples of `[s, e)` (lines 41-43). -/
def kickVec (o : Osc) (s e : ℕ) : List ℚ :=
  (List.range (e - s)).map (fun k =>
    3/10 * o.sin (2 * o.pi * 60 * tdiff s k) * o.exp (-2 * tdiff s k / (3/20)))

/-- One hi-hat hit's contribution
`(np.sin(hihat_phase) * 0.15 + hihat_noise * 0.2) * hihat_envelope`
(lines 51-54), where `hihat_noise` draws `e - s` fresh values from the global
random stream starting at position `c`. -/
def hihatVec (o : Osc) (c s e : ℕ) : List ℚ :=
  (List.range (e - s)).map (fun k =>
    (o.sin (2 * o.pi * 150 * tdiff s k) * (3/20) + o.normal (c + k) * (1/5)) *
      o.exp (-5 * tdiff s k / (1/10)))

/-! ### Note events and the looping sequencers (lines 58-139) -/

/-- A note event emitted by a looping sequencer: frequency, nominal duration
in seconds, and the `current_time` at which it is emitted. -/
structure NoteEv where
  freq : ℚ
  dur : ℚ
  start : ℚ
deriving DecidableEq

/-- The fixed melody table `melody_notes` (lines 58-67). -/
def melody_notes : List (ℚ × ℚ) :=
  [(262, 1/4), (294, 1/4), (330, 1/4), (349, 1/4),
   (392, 1/2), (440, 1/4), (494, 1/4), (523, 1/2)]

/-- The fixed bass table `bass_notes` (lines 116-121). -/
def bass_notes : List (ℚ × ℚ) :=
  [(110, 1/2), (123, 1/2), (147, 1), (165, 1/2)]

/-- Sum of the durations of a note table (the per-cycle advance of
`current_time`). -/
def patDurSum (pat : List (ℚ × ℚ)) : ℚ := (pat.map (fun nd => nd.2)).sum

/-- One pass of the inner `for freq, note_duration in notes:` loop starting at
`current_time = c`: emits a note event per table entry unless
`current_time >= duration` breaks the pass, and returns the final
`current_time` together with the events emitted (lines 74-76, 113). -/
def innerPass (D : ℚ) : List (ℚ × ℚ) → ℚ → ℚ × List NoteEv
  | [], c => (c, [])
  | (f, d) :: rest, c =>
    if D ≤ c then (c, [])
    else
      let r := innerPass D rest (c + d)
      (r.1, ⟨f, d, c⟩ :: r.2)

/-- The outer `while current_time < duration:` loop, with explicit fuel
bounding the number of passes (the Python loop has no syntactic bound; its
termination is claim C10).  Returns the emitted note events in order, or
`none` if the fuel is exhausted while `current_time < duration` still holds. -/
def outerLoop (pat : List (ℚ × ℚ)) (D : ℚ) : ℕ → ℚ → Option (List NoteEv)
  | 0, c => if c < D then none else some []
  | fuel + 1, c =>
    if c < D then
      match outerLoop pat D fuel (innerPass D pat c).1 with
      | none => none
      | some evs2 => some ((innerPass D pat c).2 ++ evs2)
    else some []

/-- All melody note events of a run of the given integer duration (fuel
`duration + 1` passes suffices, proved in `outerLoop_enough_fuel`). -/
def melodyEvents (duration : ℕ) : List NoteEv :=
  (outerLoop melody_notes (duration : ℚ) (duration + 1) 0).getD []

/-- All bass note events of a run of the given integer duration. -/
def bassEvents (duration : ℕ) : List NoteEv :=
  (outerLoop bass_notes (duration : ℚ) (duration + 1) 0).getD []

/-- `note_start = int(current_time * sample_rate)` (lines 78, 129). -/
def noteStartSample (ev : NoteEv) : ℕ :=
  (truncQ (ev.start * sample_rate)).toNat

/-- The unclamped `note_end = int((current_time + note_duration) * sample_rate)`
(lines 79, 130). -/
def noteNomEnd (ev : NoteEv) : ℕ :=
  (truncQ ((ev.start + ev.dur) * sample_rate)).toNat

/-- The clamped `note_end = min(note_end, num_samples)` (lines 80, 131). -/
def noteEndSample (duration : ℕ) (ev : NoteEv) : ℕ :=
  min (noteNomEnd ev) (num_samples duration)

/-! ### ADSR envelope (lines 87-107) -/

/-- `attack_samples = int(attack_time * sample_rate)` with `attack_time = 0.05`. -/
def attack_samples : ℕ := (truncQ ((1/20) * (sample_rate : ℚ))).toNat

/-- `sustain_start = int((attack_time + decay_time) * sample_rate)` with
`decay_time = 0.1`. -/
def sustain_start : ℕ := (truncQ ((1/20 + 1/10) * (sample_rate : ℚ))).toNat

/-- The release segment (lines 104-107): `release_start = int((note_duration -
release_time) * sample_rate)`; only when `release_start < len(envelope)` is
the release ramp assigned into `envelope[release_start:]`.  `release_start` is
nonnegative for every duration in the note tables (they all exceed 0.1 s);
Python's negative-index slicing is therefore never exercised and is not
modelled. -/
def releaseStage (e3 : List ℚ) (d : ℚ) : Option (List ℚ) :=
  if truncQ ((d - 1/10) * (sample_rate : ℚ)) < (e3.length : ℤ) then
    setSlice e3 (truncQ ((d - 1/10) * (sample_rate : ℚ))).toNat e3.length
      (linspaceQ (7/10) 0 (e3.length - (truncQ ((d - 1/10) * (sample_rate : ℚ))).toNat))
  else some e3

/-- The ADSR envelope construction for a note of `n` local samples and nominal
duration `d` (lines 93-107): start from ones, assign the attack ramp into
`[:attack_samples]`, the decay ramp into `[attack_samples:sustain_start]`, the
sustain level from `sustain_start` on, then the release stage.  A `none`
result is numpy's broadcast `ValueError` (slice and vector lengths differ),
which occurs exactly when `n < sustain_start`. -/
def makeEnvelope (n : ℕ) (d : ℚ) : Option (List ℚ) :=
  (setSlice (List.replicate n 1) 0 attack_samples (linspaceQ 0 1 attack_samples)).bind
    (fun e1 =>
      (setSlice e1 attack_samples sustain_start
          (linspaceQ 1 (7/10) (sustain_start - attack_samples))).bind
        (fun e2 => releaseStage (fillFrom e2 sustain_start (7/10)) d))

/-! ### Melodic and bass rendering (lines 73-139) -/

/-- The synth vector `synth = np.sin(phase) * 0.25 * envelope` of one melody
note over its local samples (lines 84-110). -/
def synthVec (o : Osc) (freq : ℚ) (s n : ℕ) (env : List ℚ) : List ℚ :=
  (List.range n).map (fun k =>
    o.sin (2 * o.pi * freq * tdiff s k) * (1/4) * env.getD k 0)

/-- The bass vector `bass = np.sin(phase) * 0.15` of one bass note (lines
134-136). -/
def bassVec (o : Osc) (freq : ℚ) (s n : ℕ) : List ℚ :=
  (List.range n).map (fun k => o.sin (2 * o.pi * freq * tdiff s k) * (3/20))

/-- Rendering of one melody note event into the buffer (lines 78-111): guarded
by `note_start < num_samples`; inside the guard the ADSR envelope is built
(possibly raising, hence `Option`) and the shaped synth is added in place. -/
def renderNote (o : Osc) (N : ℕ) (b : List ℚ) (ev : NoteEv) : Option (List ℚ) :=
  let s := noteStartSample ev
  let e := min (noteNomEnd ev) N
  if s < N then
    match makeEnvelope (e - s) ev.dur with
    | none => none
    | some env => some (addVec b s (synthVec o ev.freq s (e - s) env))
  else some b

/-- Rendering of the whole melody event list, in emission order. -/
def melodyRender (o : Osc) (N : ℕ) (evs : List NoteEv) (b : List ℚ) :
    Option (List ℚ) :=
  evs.foldlM (renderNote o N) b

/-- Rendering of one bass note event (lines 129-137); no envelope, total. -/
def renderBassNote (o : Osc) (N : ℕ) (b : List ℚ) (ev : NoteEv) : List ℚ :=
  let s := noteStartSample ev
  let e := min (noteNomEnd ev) N
  if s < N then addVec b s (bassVec o ev.freq s (e - s)) else b

/-- Rendering of the whole bass event list. -/
def bassRender (o : Osc) (N : ℕ) (evs : List NoteEv) (b : List ℚ) : List ℚ :=
  evs.foldl (renderBassNote o N) b

/-! ### The whole synthesis (lines 23-144) -/

/-- The kick loop (lines 37-43): one pass per `i in range(duration * 4)`,
writing only when `beat_end < num_samples`. -/
def kickLoop (o : Osc) (duration bpm N : ℕ) (a0 : List ℚ) : List ℚ :=
  (List.range (duration * 4)).foldl (fun a i =>
    if kickEnd bpm i < N then
      addVec a (kickStart bpm i) (kickVec o (kickStart bpm i) (kickEnd bpm i))
    else a) a0

/-- The hi-hat loop (lines 47-54): one pass per `i in range(duration * 2)`,
writing only when `beat_end < num_samples`; the second state component is the
position in the global random stream, advanced by the number of noise samples
drawn. -/
def hihatLoop (o : Osc) (duration bpm N : ℕ) (p0 : List ℚ × ℕ) : List ℚ × ℕ :=
  (List.range (duration * 2)).foldl (fun p i =>
    if hihatEnd bpm i < N then
      (addVec p.1 (hihatStart bpm i)
        (hihatVec o p.2 (hihatStart bpm i) (hihatEnd bpm i)),
       p.2 + (hihatEnd bpm i - hihatStart bpm i))
    else p) p0

/-- The synthesis pipeline of `generate_disco_audio` up to and including
normalization: the float sample buffer that is then quantized and written to
the WAV container.  The four voices accumulate in source order (kick, hi-hat,
melody, bass); the hi-hat loop threads the position in the global random
stream, consuming one draw per noise sample exactly as the sequence of
`np.random.normal` calls does.  `none` is a runtime error in the melody's
envelope construction (never reached for integer durations, see claim C4/C5
theorems). -/
def generate_disco_audio (o : Osc) (duration bpm : ℕ) : Option (List ℚ) :=
  let N := num_samples duration
  let audio1 := kickLoop o duration bpm N (List.replicate N 0)
  let p := hihatLoop o duration bpm N (audio1, 0)
  match melodyRender o N (melodyEvents duration) p.1 with
  | none => none
  | some audio3 => some (normalize (bassRender o N (bassEvents duration) audio3))

/-- A numeric-library environment whose random draws are all 0 (sine and
exponential are degenerate but identical to `osc1`). -/
def osc0 : Osc := ⟨0, fun _ => 0, fun _ => 1, fun _ => 0⟩

/-- The same environment as `osc0` except that the random draws are all 1. -/
def osc1 : Osc := ⟨0, fun _ => 0, fun _ => 1, fun _ => 1⟩


/-- Quarter-second multiples: every `current_time` value of the sequencers. -/
def Q4 (x : ℚ) : Prop := ∃ k : ℕ, x = (k : ℚ) / 4


/-! ### Basic lemmas about `maxAbs`, `normalize`, `truncQ` -/

lemma maxAbs_nil : maxAbs [] = 0 := rfl

lemma maxAbs_cons (x : ℚ) (xs : List ℚ) : maxAbs (x :: xs) = max |x| (maxAbs xs) := rfl

lemma maxAbs_nonneg (l : List ℚ) : 0 ≤ maxAbs l := by
  induction l with
  | nil => simp [maxAbs_nil]
  | cons x xs ih => rw [maxAbs_cons]; exact le_trans ih (le_max_right _ _)

lemma abs_le_maxAbs {x : ℚ} {l : List ℚ} (h : x ∈ l) : |x| ≤ maxAbs l := by
  induction l with
  | nil => cases h
  | cons a as ih =>
    rw [maxAbs_cons]
    rcases List.mem_cons.mp h with rfl | h2
    · exact le_max_left _ _
    · exact le_trans (ih h2) (le_max_right _ _)

lemma maxAbs_map_mul (l : List ℚ) {k : ℚ} (hk : 0 ≤ k) :
    maxAbs (l.map (fun x => x * k)) = maxAbs l * k := by
  induction l with
  | nil => simp [maxAbs_nil]
  | cons a as ih =>
    rw [List.map_cons, maxAbs_cons, maxAbs_cons, ih]
    rw [abs_mul, abs_of_nonneg hk, max_mul_of_nonneg _ _ hk]

lemma maxAbs_replicate (n : ℕ) (c : ℚ) :
    maxAbs (List.replicate n c) = if n = 0 then 0 else |c| := by
  induction n with
  | zero => simp [maxAbs_nil]
  | succ m ih =>
    rw [List.replicate_succ, maxAbs_cons, ih]
    by_cases hm : m = 0
    · simp [hm, le_max_iff, abs_nonneg]
    · simp [hm]

lemma maxAbs_append (l₁ l₂ : List ℚ) :
    maxAbs (l₁ ++ l₂) = max (maxAbs l₁) (maxAbs l₂) := by
  induction l₁ with
  | nil => simp [maxAbs_nil, max_eq_right (maxAbs_nonneg l₂)]
  | cons a as ih => rw [List.cons_append, maxAbs_cons, maxAbs_cons, ih, max_assoc]

lemma truncQ_natCast (n : ℕ) : truncQ (n : ℚ) = (n : ℤ) := by
  unfold truncQ
  rw [if_neg (not_lt.mpr (by positivity)), Int.floor_natCast]

lemma abs_truncQ_le (q : ℚ) : |(truncQ q : ℚ)| ≤ |q| := by
  unfold truncQ
  by_cases h : q < 0
  · rw [if_pos h]
    have h1 : q ≤ (⌈q⌉ : ℚ) := Int.le_ceil q
    have h2 : (⌈q⌉ : ℚ) ≤ 0 := by
      exact_mod_cast Int.ceil_le.mpr (show q ≤ ((0 : ℤ) : ℚ) by exact_mod_cast h.le)
    rw [abs_of_nonpos h2, abs_of_nonpos h.le]
    linarith
  · rw [if_neg h]
    push_neg at h
    have h1 : (⌊q⌋ : ℚ) ≤ q := Int.floor_le q
    have h2 : (0 : ℚ) ≤ (⌊q⌋ : ℚ) := by exact_mod_cast Int.floor_nonneg.mpr h
    rw [abs_of_nonneg h2, abs_of_nonneg h]
    exact h1

lemma truncQ_mono {a b : ℚ} (h : a ≤ b) : truncQ a ≤ truncQ b := by
  unfold truncQ
  by_cases ha : a < 0
  · rw [if_pos ha]
    by_cases hb : b < 0
    · rw [if_pos hb]; exact Int.ceil_le_ceil h
    · rw [if_neg hb]
      push_neg at hb
      have hc : ⌈a⌉ ≤ 0 :=
        Int.ceil_le.mpr (show a ≤ ((0 : ℤ) : ℚ) by exact_mod_cast ha.le)
      exact le_trans hc (Int.floor_nonneg.mpr hb)
  · rw [if_neg ha]
    push_neg at ha
    rw [if_neg (by push_neg; linarith)]
    exact Int.floor_le_floor h

lemma normalize_of_pos {l : List ℚ} (h : 0 < maxAbs l) :
    normalize l = l.map (fun x => x / maxAbs l * (19/20)) := by
  rw [normalize, if_pos h]

lemma maxAbs_normalize {l : List ℚ} (h : 0 < maxAbs l) :
    maxAbs (normalize l) = 19/20 := by
  rw [normalize_of_pos h]
  have hfun : (fun x : ℚ => x / maxAbs l * (19/20)) =
      fun x : ℚ => x * ((19/20) / maxAbs l) := by
    funext x; rw [div_mul_eq_mul_div, mul_div_assoc]
  rw [hfun, maxAbs_map_mul l (by positivity)]
  rw [mul_comm, div_mul_cancel₀ _ (ne_of_gt h)]

lemma abs_le_of_mem_normalize {l : List ℚ} {x : ℚ} (h : x ∈ normalize l) :
    |x| ≤ 19/20 := by
  by_cases hm : 0 < maxAbs l
  · calc |x| ≤ maxAbs (normalize l) := abs_le_maxAbs h
    _ = 19/20 := maxAbs_normalize hm
  · have h0 : maxAbs l = 0 := le_antisymm (not_lt.mp hm) (maxAbs_nonneg l)
    rw [normalize, if_neg hm] at h
    calc |x| ≤ maxAbs l := abs_le_maxAbs h
    _ = 0 := h0
    _ ≤ 19/20 := by norm_num

/-! ### Claims C2, C3, C7, C8 -/

/-- C2.  Normalization contract (lines 142-144): if the peak magnitude is
positive, every sample is rescaled by `0.95 / max` and the resulting peak
magnitude is exactly `0.95`; if the peak is zero the buffer is unchanged. -/
theorem C2_normalize_contract (l : List ℚ) :
    (0 < maxAbs l →
      normalize l = l.map (fun x => x / maxAbs l * (19/20)) ∧
      maxAbs (normalize l) = 19/20) ∧
    (maxAbs l = 0 → normalize l = l) := by
  constructor
  · intro h
    exact ⟨normalize_of_pos h, maxAbs_normalize h⟩
  · intro h
    rw [normalize, if_neg (by rw [h]; exact lt_irrefl 0)]

/-- Witness for C2 on the concrete buffer `[1, -2]` (peak 2). -/
theorem C2_normalize_contract_witness :
    normalize [(1 : ℚ), -2] = [(1 : ℚ), -2].map
      (fun x => x / maxAbs [(1 : ℚ), -2] * (19/20)) ∧
    maxAbs (normalize [(1 : ℚ), -2]) = 19/20 :=
  (C2_normalize_contract [(1 : ℚ), -2]).1 (by decide)

/-- C3.  The transcoder returns the MP3 path iff the encoder process exits
with status zero; on every failure outcome (binary not found, non-zero exit,
timeout, other exception) it returns the WAV path.  It is a total function of
the outcome — no failure propagates. -/
theorem C3_transcoder_fallback (wav_file mp3_file : String) (r : RunOutcome)
    (hne : wav_file ≠ mp3_file) :
    (convert_wav_to_mp3 wav_file mp3_file r = mp3_file ↔ r = .completed 0) ∧
    (r ≠ .completed 0 → convert_wav_to_mp3 wav_file mp3_file r = wav_file) := by
  constructor
  · constructor
    · intro h
      cases r with
      | completed rc =>
        by_cases hrc : rc = 0
        · rw [hrc]
        · rw [convert_wav_to_mp3, if_neg hrc] at h
          exact absurd h hne
      | fileNotFound => exact absurd h hne
      | timedOut => exact absurd h hne
      | otherError => exact absurd h hne
    · intro h
      rw [h, convert_wav_to_mp3, if_pos rfl]
  · intro h
    cases r with
    | completed rc =>
      have hrc : rc ≠ 0 := by
        intro hc; exact h (by rw [hc])
      rw [convert_wav_to_mp3, if_neg hrc]
    | fileNotFound => rfl
    | timedOut => rfl
    | otherError => rfl

/-- Witness for C3: with a non-zero exit status the reported path is the WAV
path, not the MP3 path. -/
theorem C3_transcoder_fallback_witness :
    convert_wav_to_mp3 "audio.wav" "audio.mp3" (.completed 1) = "audio.wav" ∧
    convert_wav_to_mp3 "audio.wav" "audio.mp3" (.completed 0) = "audio.mp3" := by
  have h1 := C3_transcoder_fallback "audio.wav" "audio.mp3" (.completed 1) (by decide)
  have h0 := C3_transcoder_fallback "audio.wav" "audio.mp3" (.completed 0) (by decide)
  exact ⟨h1.2 (by decide), h0.1.mpr rfl⟩

/-- C7.  Every sample of a normalized buffer has magnitude at most 0.95, its
quantized value `int(x * 32767)` lies in the signed 16-bit range
`[-32768, 32767]`, and the 16-bit conversion does not wrap on it. -/
theorem C7_quantize_in_range (l : List ℚ) (x : ℚ) (h : x ∈ normalize l) :
    |x| ≤ 19/20 ∧
    -32768 ≤ quantQ x ∧ quantQ x ≤ 32767 ∧
    int16OfQ x = quantQ x := by
  have hx : |x| ≤ 19/20 := abs_le_of_mem_normalize h
  have habs : |(quantQ x : ℚ)| ≤ 31129 := by
    calc |(quantQ x : ℚ)| ≤ |x * 32767| := abs_truncQ_le _
    _ = |x| * 32767 := by rw [abs_mul]; norm_num
    _ ≤ (19/20) * 32767 := by nlinarith
    _ ≤ 31129 := by norm_num
  have hZ : |quantQ x| ≤ 31129 := by
    have hc := habs
    rw [← Int.cast_abs] at hc
    exact_mod_cast hc
  obtain ⟨hA, hB⟩ := abs_le.mp hZ
  have hlo : -32768 ≤ quantQ x := by omega
  have hhi : quantQ x ≤ 32767 := by omega
  refine ⟨hx, hlo, hhi, ?_⟩
  unfold int16OfQ wrap16
  have hmod : (quantQ x + 32768) % 65536 = quantQ x + 32768 :=
    Int.emod_eq_of_lt (by omega) (by omega)
  omega

/-- Witness for C7 at the buffer `[1]`, whose normalization is `[0.95]`. -/
theorem C7_quantize_in_range_witness :
    |(19/20 : ℚ)| ≤ 19/20 ∧
    -32768 ≤ quantQ (19/20) ∧ quantQ (19/20) ≤ 32767 ∧
    int16OfQ (19/20) = quantQ (19/20) :=
  C7_quantize_in_range [1] (19/20) (by
    have h : normalize [(1 : ℚ)] = [(19/20 : ℚ)] := by
      norm_num [normalize, maxAbs_cons, maxAbs_nil]
    rw [h]
    exact List.mem_singleton.mpr rfl)

/-- C8.  Quantization is monotonic on `[-1, 1]`: `a < b` implies
`int(a * 32767) ≤ int(b * 32767)`. -/
theorem C8_quantize_monotone (a b : ℚ) (ha : -1 ≤ a) (hab : a < b) (hb : b ≤ 1) :
    quantQ a ≤ quantQ b := by
  unfold quantQ
  exact truncQ_mono (by nlinarith)

/-- Witness for C8 at `a = -1/2`, `b = 1/2`. -/
theorem C8_quantize_monotone_witness : quantQ (-1/2) ≤ quantQ (1/2) :=
  C8_quantize_monotone (-1/2) (1/2) (by norm_num) (by norm_num) (by norm_num)

/-! ### Helper lemmas about the write primitives -/

lemma zipWith_add_of_right_zero : ∀ (x v : List ℚ), (∀ y ∈ v, y = 0) →
    x.length ≤ v.length → List.zipWith (· + ·) x v = x
  | [], _, _, _ => by simp
  | a :: xs, [], _, hl => by simp at hl
  | a :: xs, b :: vs, h, hl => by
    have hb : b = 0 := h b (List.mem_cons_self _ _)
    have ih := zipWith_add_of_right_zero xs vs
      (fun y hy => h y (List.mem_cons_of_mem _ hy)) (by simpa using hl)
    simp [hb, ih]

lemma zipWith_add_replicate_zero : ∀ (m : ℕ) (c : ℚ),
    List.zipWith (· + ·) (List.replicate m 0) (List.replicate m c) =
      List.replicate m c
  | 0, _ => rfl
  | m + 1, c => by
    simp [List.replicate_succ, zipWith_add_replicate_zero m c]

/-- Adding an all-zero vector anywhere leaves the buffer unchanged. -/
lemma addVec_zero (l : List ℚ) (s : ℕ) (v : List ℚ) (h : ∀ y ∈ v, y = 0) :
    addVec l s v = l := by
  unfold addVec
  rw [zipWith_add_of_right_zero _ v h (List.length_take_le _ _)]
  have h2 : (l.drop s).take v.length ++ l.drop (s + v.length) = l.drop s := by
    have h3 : l.drop (s + v.length) = (l.drop s).drop v.length := by
      rw [List.drop_drop, Nat.add_comm]
    rw [h3, List.take_append_drop]
  rw [List.append_assoc, h2, List.take_append_drop]

lemma addVec_length (l : List ℚ) (s : ℕ) (v : List ℚ) (h : s + v.length ≤ l.length) :
    (addVec l s v).length = l.length := by
  simp only [addVec, List.length_append, List.length_take, List.length_drop,
    List.length_zipWith]
  omega

/-- A constant vector added to an all-zero buffer gives three blocks. -/
lemma addVec_replicate (N s m : ℕ) (c : ℚ) (h : s + m ≤ N) :
    addVec (List.replicate N (0:ℚ)) s (List.replicate m c) =
      List.replicate s 0 ++ List.replicate m c ++ List.replicate (N - s - m) 0 := by
  unfold addVec
  rw [List.length_replicate, List.take_replicate, List.drop_replicate,
    List.take_replicate, List.drop_replicate]
  rw [show min s N = s by omega, show min m (N - s) = m by omega,
    zipWith_add_replicate_zero, show N - (s + m) = N - s - m by omega]

lemma foldl_invariant {α β : Type} (P : β → Prop) (f : β → α → β) :
    ∀ (l : List α) (b : β), P b → (∀ b' a, a ∈ l → P b' → P (f b' a)) →
      P (l.foldl f b)
  | [], b, hb, _ => hb
  | a :: l, b, hb, hf => by
    rw [List.foldl_cons]
    exact foldl_invariant P f l (f b a)
      (hf b a (List.mem_cons_self _ _) hb)
      (fun b' x hx => hf b' x (List.mem_cons_of_mem _ hx))

lemma foldl_fixed {α β : Type} (f : β → α → β) :
    ∀ (l : List α) (b : β), (∀ b' a, a ∈ l → f b' a = b') → l.foldl f b = b
  | [], _, _ => rfl
  | a :: l, b, hf => by
    rw [List.foldl_cons, hf b a (List.mem_cons_self _ _)]
    exact foldl_fixed f l b (fun b' x hx => hf b' x (List.mem_cons_of_mem _ hx))

lemma foldlM_some {α β : Type} (f : β → α → Option β) (P : β → Prop) :
    ∀ (l : List α) (b : β), P b →
      (∀ b' a, a ∈ l → P b' → ∃ b'', f b' a = some b'' ∧ P b'') →
      ∃ r, List.foldlM f b l = some r ∧ P r
  | [], b, hb, _ => ⟨b, rfl, hb⟩
  | a :: l, b, hb, hf => by
    obtain ⟨b1, hfb, hP1⟩ := hf b a (List.mem_cons_self _ _) hb
    obtain ⟨r, hr, hPr⟩ := foldlM_some f P l b1 hP1
      (fun b' x hx => hf b' x (List.mem_cons_of_mem _ hx))
    refine ⟨r, ?_, hPr⟩
    rw [List.foldlM_cons, hfb]
    simpa using hr

/-! ### Helper lemmas about the envelope -/

lemma linspaceQ_length (a b : ℚ) (n : ℕ) : (linspaceQ a b n).length = n := by
  unfold linspaceQ
  split_ifs with h1 h2
  · simp [h1]
  · simp [h2]
  · rw [List.length_map, List.length_range]

lemma fillFrom_length (l : List ℚ) (i : ℕ) (c : ℚ) :
    (fillFrom l i c).length = l.length := by
  simp only [fillFrom, List.length_append, List.length_take, List.length_replicate]
  omega

lemma setSlice_some {l v : List ℚ} {i j : ℕ} (hij : i ≤ j) (_hi : i ≤ l.length)
    (hj : j ≤ l.length) (hv : v.length = j - i) :
    setSlice l i j v = some (l.take i ++ v ++ l.drop j) := by
  simp only [setSlice]
  rw [show min j l.length = j by omega, show min i l.length = i by omega,
    Nat.max_eq_right hij, if_pos hv]

lemma releaseStage_some (e3 : List ℚ) (d : ℚ) :
    ∃ r, releaseStage e3 d = some r ∧ r.length = e3.length := by
  unfold releaseStage
  by_cases hrs : truncQ ((d - 1/10) * (sample_rate : ℚ)) < (e3.length : ℤ)
  · rw [if_pos hrs]
    have hle : (truncQ ((d - 1/10) * (sample_rate : ℚ))).toNat ≤ e3.length := by omega
    rw [setSlice_some hle hle le_rfl (by rw [linspaceQ_length])]
    refine ⟨_, rfl, ?_⟩
    simp only [List.length_append, List.length_take, linspaceQ_length,
      List.length_drop]
    omega
  · rw [if_neg hrs]
    exact ⟨e3, rfl, rfl⟩

lemma truncQ_natCast_toNat (n : ℕ) : (truncQ (n : ℚ)).toNat = n := by
  rw [truncQ_natCast]; exact Int.toNat_natCast n

lemma attack_samples_eq : attack_samples = 2205 := by
  have h : ((1 : ℚ)/20) * (sample_rate : ℚ) = ((2205 : ℕ) : ℚ) := by
    norm_num [sample_rate]
  rw [attack_samples, h, truncQ_natCast_toNat]

lemma sustain_start_eq : sustain_start = 6615 := by
  have h : ((1 : ℚ)/20 + 1/10) * (sample_rate : ℚ) = ((6615 : ℕ) : ℚ) := by
    norm_num [sample_rate]
  rw [sustain_start, h, truncQ_natCast_toNat]

/-- When at least `sustain_start` local samples are available, the ADSR
construction succeeds and the envelope covers exactly the local range. -/
lemma makeEnvelope_some (n : ℕ) (d : ℚ) (hn : 6615 ≤ n) :
    ∃ env, makeEnvelope n d = some env ∧ env.length = n := by
  unfold makeEnvelope
  rw [attack_samples_eq, sustain_start_eq]
  have h1 : setSlice (List.replicate n (1:ℚ)) 0 2205 (linspaceQ 0 1 2205) =
      some ((List.replicate n (1:ℚ)).take 0 ++ linspaceQ 0 1 2205 ++
        (List.replicate n (1:ℚ)).drop 2205) :=
    setSlice_some (by omega) (by simp) (by simp; omega) (by rw [linspaceQ_length])
  rw [h1, Option.some_bind]
  set E1 := (List.replicate n (1:ℚ)).take 0 ++ linspaceQ 0 1 2205 ++
    (List.replicate n (1:ℚ)).drop 2205 with hE1
  have hE1len : E1.length = n := by
    simp only [hE1, List.length_append, List.length_take, linspaceQ_length,
      List.length_drop, List.length_replicate]
    omega
  have h2 : setSlice E1 2205 6615 (linspaceQ 1 (7/10) (6615 - 2205)) =
      some (E1.take 2205 ++ linspaceQ 1 (7/10) (6615 - 2205) ++ E1.drop 6615) :=
    setSlice_some (by omega) (by omega) (by omega) (by rw [linspaceQ_length])
  rw [h2, Option.some_bind]
  obtain ⟨r, hr, hrlen⟩ :=
    releaseStage_some (fillFrom (E1.take 2205 ++ linspaceQ 1 (7/10) (6615 - 2205) ++
      E1.drop 6615) 6615 (7/10)) d
  refine ⟨r, hr, ?_⟩
  rw [hrlen, fillFrom_length]
  simp only [List.length_append, List.length_take, linspaceQ_length, List.length_drop]
  omega

/-! ### Claim C1: percussion placement -/

lemma kickStart_120 (i : ℕ) : kickStart 120 i = i * 22050 := by
  have h : (i : ℚ) * (sample_rate : ℚ) * (60 / ((120 : ℕ) : ℚ)) =
      ((i * 22050 : ℕ) : ℚ) := by
    push_cast [sample_rate]
    ring
  rw [kickStart, h, truncQ_natCast_toNat]

/-- For any tempo, a kick hit covers exactly 6615 samples (150 ms). -/
lemma kickEnd_eq (bpm i : ℕ) : kickEnd bpm i = kickStart bpm i + 6615 := by
  have h : ((kickStart bpm i : ℕ) : ℚ) + (sample_rate : ℚ) * (3/20) =
      ((kickStart bpm i + 6615 : ℕ) : ℚ) := by
    push_cast [sample_rate]
    ring
  rw [kickEnd, h, truncQ_natCast_toNat]

lemma hihatStart_120 (i : ℕ) : hihatStart 120 i = (2 * i + 1) * 22050 := by
  have h : ((i : ℚ) * 2 + 1) * (sample_rate : ℚ) * (60 / ((120 : ℕ) : ℚ)) =
      (((2 * i + 1) * 22050 : ℕ) : ℚ) := by
    push_cast [sample_rate]
    ring
  rw [hihatStart, h, truncQ_natCast_toNat]

/-- For any tempo, a hi-hat hit covers exactly 4410 samples (100 ms). -/
lemma hihatEnd_eq (bpm i : ℕ) : hihatEnd bpm i = hihatStart bpm i + 4410 := by
  have h : ((hihatStart bpm i : ℕ) : ℚ) + (sample_rate : ℚ) * (1/10) =
      ((hihatStart bpm i + 4410 : ℕ) : ℚ) := by
    push_cast [sample_rate]
    ring
  rw [hihatEnd, h, truncQ_natCast_toNat]

lemma kickHits_15_120 :
    kickHits 15 120 =
      (List.range 60).filter (fun i => i * 22050 + 6615 < 661500) := by
  unfold kickHits
  rw [show (15 * 4 : ℕ) = 60 from rfl]
  apply List.filter_congr
  intro i _
  rw [kickEnd_eq, kickStart_120, show num_samples 15 = 661500 from rfl]

lemma hihatHits_15_120 :
    hihatHits 15 120 =
      (List.range 30).filter (fun i => (2 * i + 1) * 22050 + 4410 < 661500) := by
  unfold hihatHits
  rw [show (15 * 2 : ℕ) = 30 from rfl]
  apply List.filter_congr
  intro i _
  rw [hihatEnd_eq, hihatStart_120, show num_samples 15 = 661500 from rfl]

/-- C1 counterexample.  For duration 15 s at 120 BPM the code does not place
60 kick and 30 hi-hat hits: the guard `beat_end < num_samples` skips every
placement ending past the buffer, and only 30 kick hits and 15 hi-hat hits
are written. -/
theorem C1_percussion_counts_counterexample :
    ¬ ((kickHits 15 120).length = 60 ∧ (hihatHits 15 120).length = 30) := by
  rw [kickHits_15_120, hihatHits_15_120]
  decide

/-- C1 amended.  At 120 BPM the beat period is 0.5 s, so kick hits fall every
22050 samples (2 per second) and hi-hat hits every second on the off-beat.
The kick loop iterates `duration * 4 = 60` times and the hi-hat loop 30
times, but placements whose end would reach past the buffer are skipped, so
for duration 15 s exactly 30 kick hits and 15 hi-hat hits are written, each
confined to its 150 ms (resp. 100 ms) window lying inside the buffer. -/
theorem C1_percussion_hits_amended :
    (kickHits 15 120).length = 30 ∧ (hihatHits 15 120).length = 15 ∧
    (∀ i ∈ kickHits 15 120,
      kickStart 120 i = i * 22050 ∧
      kickEnd 120 i = kickStart 120 i + 6615 ∧
      kickEnd 120 i < num_samples 15) ∧
    (∀ i ∈ hihatHits 15 120,
      hihatStart 120 i = (2 * i + 1) * 22050 ∧
      hihatEnd 120 i = hihatStart 120 i + 4410 ∧
      hihatEnd 120 i < num_samples 15) := by
  refine ⟨by rw [kickHits_15_120]; decide, by rw [hihatHits_15_120]; decide, ?_, ?_⟩
  · intro i hi
    refine ⟨kickStart_120 i, kickEnd_eq 120 i, ?_⟩
    have hmem : i ∈ (List.range 60).filter (fun i => i * 22050 + 6615 < 661500) := by
      rw [← kickHits_15_120]; exact hi
    have hlt := List.of_mem_filter hmem
    rw [kickEnd_eq, kickStart_120, show num_samples 15 = 661500 from rfl]
    exact of_decide_eq_true hlt
  · intro i hi
    refine ⟨hihatStart_120 i, hihatEnd_eq 120 i, ?_⟩
    have hmem : i ∈ (List.range 30).filter
        (fun i => (2 * i + 1) * 22050 + 4410 < 661500) := by
      rw [← hihatHits_15_120]; exact hi
    have hlt := List.of_mem_filter hmem
    rw [hihatEnd_eq, hihatStart_120, show num_samples 15 = 661500 from rfl]
    exact of_decide_eq_true hlt

/-! ### Sequencer lemmas: invariants of `innerPass` and `outerLoop` -/


lemma Q4_zero : Q4 0 := ⟨0, by norm_num⟩

lemma Q4_add {x y : ℚ} : Q4 x → Q4 y → Q4 (x + y)
  | ⟨k1, h1⟩, ⟨k2, h2⟩ => ⟨k1 + k2, by rw [h1, h2]; push_cast; ring⟩

/-- Every melody note duration is a positive quarter multiple. -/
lemma melody_durs (nd : ℚ × ℚ) (h : nd ∈ melody_notes) :
    ∃ j : ℕ, 1 ≤ j ∧ nd.2 = (j : ℚ) / 4 := by
  simp only [melody_notes, List.mem_cons, List.not_mem_nil, or_false] at h
  rcases h with rfl | rfl | rfl | rfl | rfl | rfl | rfl | rfl
  · exact ⟨1, by norm_num⟩
  · exact ⟨1, by norm_num⟩
  · exact ⟨1, by norm_num⟩
  · exact ⟨1, by norm_num⟩
  · exact ⟨2, by norm_num⟩
  · exact ⟨1, by norm_num⟩
  · exact ⟨1, by norm_num⟩
  · exact ⟨2, by norm_num⟩

/-- Every bass note duration is a positive quarter multiple. -/
lemma bass_durs (nd : ℚ × ℚ) (h : nd ∈ bass_notes) :
    ∃ j : ℕ, 1 ≤ j ∧ nd.2 = (j : ℚ) / 4 := by
  simp only [bass_notes, List.mem_cons, List.not_mem_nil, or_false] at h
  rcases h with rfl | rfl | rfl | rfl
  · exact ⟨2, by norm_num⟩
  · exact ⟨2, by norm_num⟩
  · exact ⟨4, by norm_num⟩
  · exact ⟨2, by norm_num⟩

lemma melody_durs_Q4 (nd : ℚ × ℚ) (h : nd ∈ melody_notes) : Q4 nd.2 := by
  obtain ⟨j, _, hj⟩ := melody_durs nd h
  exact ⟨j, hj⟩

lemma bass_durs_Q4 (nd : ℚ × ℚ) (h : nd ∈ bass_notes) : Q4 nd.2 := by
  obtain ⟨j, _, hj⟩ := bass_durs nd h
  exact ⟨j, hj⟩

/-- After one inner pass, `current_time` either reached the target or advanced
by exactly the cycle length of the table. -/
lemma innerPass_fst (D : ℚ) : ∀ (pat : List (ℚ × ℚ)) (c : ℚ),
    D ≤ (innerPass D pat c).1 ∨ (innerPass D pat c).1 = c + patDurSum pat
  | [], c => Or.inr (by simp [innerPass, patDurSum])
  | (f, d) :: rest, c => by
    by_cases h : D ≤ c
    · left; simp [innerPass, h]
    · rcases innerPass_fst D rest (c + d) with h1 | h1 <;>
        simp only [innerPass, if_neg h]
      · left; exact h1
      · right
        rw [h1]
        simp only [patDurSum, List.map_cons, List.sum_cons]
        ring

lemma innerPass_fst_Q4 (D : ℚ) : ∀ (pat : List (ℚ × ℚ)) (c : ℚ), Q4 c →
    (∀ nd ∈ pat, Q4 nd.2) → Q4 (innerPass D pat c).1
  | [], c, hc, _ => by simpa [innerPass] using hc
  | (f, d) :: rest, c, hc, hpat => by
    by_cases h : D ≤ c
    · simpa [innerPass, h] using hc
    · simp only [innerPass, if_neg h]
      exact innerPass_fst_Q4 D rest (c + d)
        (Q4_add hc (hpat (f, d) (List.mem_cons_self _ _)))
        (fun nd hnd => hpat nd (List.mem_cons_of_mem _ hnd))

/-- Every event emitted in one inner pass starts strictly before the target,
at a quarter multiple, with a duration taken from the table. -/
lemma innerPass_events (D : ℚ) : ∀ (pat : List (ℚ × ℚ)) (c : ℚ), Q4 c →
    (∀ nd ∈ pat, Q4 nd.2) →
    ∀ ev ∈ (innerPass D pat c).2,
      ev.start < D ∧ Q4 ev.start ∧ ev.dur ∈ pat.map Prod.snd
  | [], c, _, _, ev => by simp [innerPass]
  | (f, d) :: rest, c, hc, hpat, ev => by
    by_cases h : D ≤ c
    · simp [innerPass, h]
    · simp only [innerPass, if_neg h, List.mem_cons]
      intro hev
      rcases hev with rfl | hev
      · exact ⟨not_le.mp h, hc, by simp⟩
      · have ih := innerPass_events D rest (c + d)
          (Q4_add hc (hpat (f, d) (List.mem_cons_self _ _)))
          (fun nd hnd => hpat nd (List.mem_cons_of_mem _ hnd)) ev hev
        exact ⟨ih.1, ih.2.1, by simp only [List.map_cons, List.mem_cons]; right; exact ih.2.2⟩

/-- Every event emitted by the outer loop starts strictly before the target,
at a quarter multiple, with a duration taken from the table. -/
lemma outerLoop_events (pat : List (ℚ × ℚ)) (D : ℚ)
    (hpat : ∀ nd ∈ pat, Q4 nd.2) :
    ∀ (fuel : ℕ) (c : ℚ), Q4 c → ∀ (evs : List NoteEv),
      outerLoop pat D fuel c = some evs →
      ∀ ev ∈ evs, ev.start < D ∧ Q4 ev.start ∧ ev.dur ∈ pat.map Prod.snd := by
  intro fuel
  induction fuel with
  | zero =>
    intro c _ evs h
    unfold outerLoop at h
    by_cases hcD : c < D
    · rw [if_pos hcD] at h
      cases h
    · rw [if_neg hcD] at h
      cases h
      simp
  | succ f ih =>
    intro c hc evs h
    unfold outerLoop at h
    by_cases hcD : c < D
    · rw [if_pos hcD] at h
      cases hrec : outerLoop pat D f (innerPass D pat c).1 with
      | none => rw [hrec] at h; cases h
      | some evs2 =>
        rw [hrec] at h
        cases h
        intro ev hev
        rcases List.mem_append.mp hev with h1 | h1
        · exact innerPass_events D pat c hc hpat ev h1
        · exact ih (innerPass D pat c).1 (innerPass_fst_Q4 D pat c hc hpat) evs2 hrec ev h1
    · rw [if_neg hcD] at h
      cases h
      simp

/-- Fuel sufficiency: with `D ≤ c + fuel * cycle` the outer loop completes. -/
lemma outerLoop_enough_fuel (pat : List (ℚ × ℚ)) (D : ℚ)
    (hS : 0 ≤ patDurSum pat) :
    ∀ (fuel : ℕ) (c : ℚ), D ≤ c + (fuel : ℚ) * patDurSum pat →
      ∃ evs, outerLoop pat D fuel c = some evs := by
  intro fuel
  induction fuel with
  | zero =>
    intro c hc
    refine ⟨[], ?_⟩
    unfold outerLoop
    rw [if_neg (not_lt.mpr (by push_cast at hc; linarith))]
  | succ f ih =>
    intro c hc
    by_cases hcD : c < D
    · have hnext : D ≤ (innerPass D pat c).1 + (f : ℚ) * patDurSum pat := by
        rcases innerPass_fst D pat c with h1 | h1
        · have h0 : 0 ≤ (f : ℚ) * patDurSum pat :=
            mul_nonneg (by positivity) hS
          linarith
        · rw [h1]
          push_cast at hc
          linarith
      obtain ⟨evs2, h2⟩ := ih (innerPass D pat c).1 hnext
      refine ⟨(innerPass D pat c).2 ++ evs2, ?_⟩
      unfold outerLoop
      rw [if_pos hcD, h2]
    · refine ⟨[], ?_⟩
      unfold outerLoop
      rw [if_neg hcD]

lemma patDurSum_melody : patDurSum melody_notes = 5/2 := by
  simp only [patDurSum, melody_notes, List.map_cons, List.map_nil, List.sum_cons,
    List.sum_nil]
  norm_num

lemma patDurSum_bass : patDurSum bass_notes = 5/2 := by
  simp only [patDurSum, bass_notes, List.map_cons, List.map_nil, List.sum_cons,
    List.sum_nil]
  norm_num

lemma melodyEvents_eq (D : ℕ) :
    outerLoop melody_notes (D : ℚ) (D + 1) 0 = some (melodyEvents D) := by
  obtain ⟨evs, h⟩ := outerLoop_enough_fuel melody_notes D
    (by rw [patDurSum_melody]; norm_num) (D + 1) 0
    (by rw [patDurSum_melody]; push_cast; linarith [Nat.cast_nonneg (α := ℚ) D])
  rw [melodyEvents, h, Option.getD_some]

lemma bassEvents_eq (D : ℕ) :
    outerLoop bass_notes (D : ℚ) (D + 1) 0 = some (bassEvents D) := by
  obtain ⟨evs, h⟩ := outerLoop_enough_fuel bass_notes D
    (by rw [patDurSum_bass]; norm_num) (D + 1) 0
    (by rw [patDurSum_bass]; push_cast; linarith [Nat.cast_nonneg (α := ℚ) D])
  rw [bassEvents, h, Option.getD_some]

/-- The sample window of an event emitted before an integer target duration:
the start sample is a multiple of 11025 lying inside the buffer and the
clamped end leaves at least 11025 samples (a quarter second) for the note. -/
lemma emitted_window {D : ℕ} {ev : NoteEv} (hlt : ev.start < (D : ℚ))
    (hQ4 : Q4 ev.start) (hdur : ∃ j : ℕ, 1 ≤ j ∧ ev.dur = (j : ℚ) / 4) :
    11025 ≤ noteEndSample D ev - noteStartSample ev ∧
      noteStartSample ev < num_samples D := by
  obtain ⟨k, hk⟩ := hQ4
  obtain ⟨j, hj1, hj⟩ := hdur
  have hstart : noteStartSample ev = 11025 * k := by
    have h : ev.start * (sample_rate : ℚ) = ((11025 * k : ℕ) : ℚ) := by
      rw [hk]; push_cast [sample_rate]; ring
    rw [noteStartSample, h, truncQ_natCast_toNat]
  have hnom : noteNomEnd ev = 11025 * (k + j) := by
    have h : (ev.start + ev.dur) * (sample_rate : ℚ) = ((11025 * (k + j) : ℕ) : ℚ) := by
      rw [hk, hj]; push_cast [sample_rate]; ring
    rw [noteNomEnd, h, truncQ_natCast_toNat]
  have hkD : k + 1 ≤ 4 * D := by
    rw [hk] at hlt
    have h4 : (k : ℚ) < 4 * D := by linarith
    have hn : k < 4 * D := by exact_mod_cast h4
    omega
  have hns : num_samples D = 11025 * (4 * D) := by
    show sample_rate * D = 11025 * (4 * D)
    show 44100 * D = 11025 * (4 * D)
    ring
  rw [noteEndSample, hstart, hnom, hns]
  omega

/-! ### Claim C10: the sequencer loops terminate -/

/-- C10.  For every positive target duration there is a finite fuel with which
both sequencer loops complete: each inner iteration advances `current_time` by
its table entry's positive duration, one full pass of either table advances it
by 2.5 s, so `current_time` passes the target after finitely many notes. -/
theorem C10_sequencers_terminate (D : ℚ) (hD : 0 < D) :
    ∃ (fuel : ℕ) (evsM evsB : List NoteEv),
      outerLoop melody_notes D fuel 0 = some evsM ∧
      outerLoop bass_notes D fuel 0 = some evsB := by
  refine ⟨⌈D⌉.toNat, ?_⟩
  have h1 : D ≤ (⌈D⌉.toNat : ℚ) := by
    have h2 : ((⌈D⌉ : ℤ) : ℚ) ≤ ((⌈D⌉.toNat : ℕ) : ℚ) := by
      exact_mod_cast Int.self_le_toNat _
    linarith [Int.le_ceil D]
  have h0 : (0 : ℚ) ≤ (⌈D⌉.toNat : ℚ) := by positivity
  have hfuel : D ≤ 0 + (⌈D⌉.toNat : ℚ) * (5/2) := by nlinarith
  obtain ⟨evsM, hM⟩ := outerLoop_enough_fuel melody_notes D
    (by rw [patDurSum_melody]; norm_num) ⌈D⌉.toNat 0
    (by rw [patDurSum_melody]; exact hfuel)
  obtain ⟨evsB, hB⟩ := outerLoop_enough_fuel bass_notes D
    (by rw [patDurSum_bass]; norm_num) ⌈D⌉.toNat 0
    (by rw [patDurSum_bass]; exact hfuel)
  exact ⟨evsM, evsB, hM, hB⟩

/-- Witness for C10 at duration 1 s. -/
theorem C10_sequencers_terminate_witness :
    ∃ (fuel : ℕ) (evsM evsB : List NoteEv),
      outerLoop melody_notes 1 fuel 0 = some evsM ∧
      outerLoop bass_notes 1 fuel 0 = some evsB :=
  C10_sequencers_terminate 1 (by norm_num)

/-! ### Claim C6: emitted notes respect the duration and the buffer -/

/-- C6.  Neither sequencer emits a note event starting at or past the target
duration (the `current_time >= duration` break precedes every emission), and
every emitted note's clamped end sample index is at most the buffer length
(`note_end = min(note_end, num_samples)`). -/
theorem C6_sequencer_emission_bounds (D fuel : ℕ) (evsM evsB : List NoteEv)
    (hM : outerLoop melody_notes (D : ℚ) fuel 0 = some evsM)
    (hB : outerLoop bass_notes (D : ℚ) fuel 0 = some evsB) :
    ∀ ev, ev ∈ evsM ∨ ev ∈ evsB →
      ev.start < (D : ℚ) ∧ noteEndSample D ev ≤ num_samples D := by
  intro ev hev
  have hend : noteEndSample D ev ≤ num_samples D := min_le_right _ _
  rcases hev with h | h
  · exact ⟨(outerLoop_events melody_notes D melody_durs_Q4 fuel 0 Q4_zero
      evsM hM ev h).1, hend⟩
  · exact ⟨(outerLoop_events bass_notes D bass_durs_Q4 fuel 0 Q4_zero
      evsB hB ev h).1, hend⟩

/-! ### Claim C4: ADSR envelopes of emitted notes -/

/-- C4.  For every integer duration and every note event the melody sequencer
emits, the clamped local sample range holds at least 11025 samples, so the
ADSR construction succeeds (the attack and decay windows of 2205 and 4410
samples fit, and the release stage is guarded by
`release_start < len(envelope)`), and the produced envelope covers exactly
the note's own local sample range — no write lands outside it. -/
theorem C4_melody_envelope (D fuel : ℕ) (evs : List NoteEv)
    (h : outerLoop melody_notes (D : ℚ) fuel 0 = some evs) :
    ∀ ev ∈ evs, ∃ env,
      makeEnvelope (noteEndSample D ev - noteStartSample ev) ev.dur = some env ∧
      env.length = noteEndSample D ev - noteStartSample ev := by
  intro ev hev
  obtain ⟨hlt, hQ4, hdur⟩ :=
    outerLoop_events melody_notes D melody_durs_Q4 fuel 0 Q4_zero evs h ev hev
  have hdur2 : ∃ j : ℕ, 1 ≤ j ∧ ev.dur = (j : ℚ) / 4 := by
    simp only [List.mem_map] at hdur
    obtain ⟨nd, hnd, hnd2⟩ := hdur
    obtain ⟨j, hj1, hj⟩ := melody_durs nd hnd
    exact ⟨j, hj1, by rw [← hnd2, hj]⟩
  have hwin := emitted_window hlt hQ4 hdur2
  exact makeEnvelope_some _ _ (by omega)

/-- Witness for C1 amended at the first kick and first hi-hat hit. -/
theorem C1_percussion_hits_witness :
    (kickStart 120 0 = 0 * 22050 ∧
      kickEnd 120 0 = kickStart 120 0 + 6615 ∧
      kickEnd 120 0 < num_samples 15) ∧
    (hihatStart 120 0 = (2 * 0 + 1) * 22050 ∧
      hihatEnd 120 0 = hihatStart 120 0 + 4410 ∧
      hihatEnd 120 0 < num_samples 15) :=
  ⟨C1_percussion_hits_amended.2.2.1 0 (by rw [kickHits_15_120]; decide),
   C1_percussion_hits_amended.2.2.2 0 (by rw [hihatHits_15_120]; decide)⟩

/-! ### Claim C5: buffer length and the time mapping -/

lemma kickVec_length (o : Osc) (s e : ℕ) : (kickVec o s e).length = e - s := by
  rw [kickVec, List.length_map, List.length_range]

lemma hihatVec_length (o : Osc) (c s e : ℕ) : (hihatVec o c s e).length = e - s := by
  rw [hihatVec, List.length_map, List.length_range]

lemma synthVec_length (o : Osc) (freq : ℚ) (s n : ℕ) (env : List ℚ) :
    (synthVec o freq s n env).length = n := by
  rw [synthVec, List.length_map, List.length_range]

lemma bassVec_length (o : Osc) (freq : ℚ) (s n : ℕ) :
    (bassVec o freq s n).length = n := by
  rw [bassVec, List.length_map, List.length_range]

lemma kickLoop_length (o : Osc) (duration bpm N : ℕ) (a0 : List ℚ)
    (h : a0.length = N) : (kickLoop o duration bpm N a0).length = N := by
  refine foldl_invariant (fun a => a.length = N) _ _ a0 h ?_
  intro a i _ ha
  dsimp only
  split_ifs with hg
  · rw [addVec_length]
    · exact ha
    · rw [ha, kickVec_length]
      have he := kickEnd_eq bpm i
      omega
  · exact ha

lemma hihatLoop_length (o : Osc) (duration bpm N : ℕ) (p0 : List ℚ × ℕ)
    (h : p0.1.length = N) : (hihatLoop o duration bpm N p0).1.length = N := by
  refine foldl_invariant (fun p : List ℚ × ℕ => p.1.length = N) _ _ p0 h ?_
  intro p i _ hp
  dsimp only
  split_ifs with hg
  · dsimp only
    rw [addVec_length]
    · exact hp
    · rw [hp, hihatVec_length]
      have he := hihatEnd_eq bpm i
      omega
  · exact hp

lemma bassRender_length (o : Osc) (N : ℕ) (evs : List NoteEv) (b : List ℚ)
    (h : b.length = N) : (bassRender o N evs b).length = N := by
  refine foldl_invariant (fun a => a.length = N) _ _ b h ?_
  intro a ev _ ha
  rw [renderBassNote]
  split_ifs with hg
  · rw [addVec_length]
    · exact ha
    · rw [ha, bassVec_length]
      have he : min (noteNomEnd ev) N ≤ N := min_le_right _ _
      omega
  · exact ha

lemma normalize_length (l : List ℚ) : (normalize l).length = l.length := by
  rw [normalize]
  split_ifs
  · rw [List.length_map]
  · rfl

lemma renderNote_some (o : Osc) (N : ℕ) (b : List ℚ) (ev : NoteEv)
    (hb : b.length = N)
    (henv : noteStartSample ev < N →
      6615 ≤ min (noteNomEnd ev) N - noteStartSample ev) :
    ∃ b2, renderNote o N b ev = some b2 ∧ b2.length = N := by
  rw [renderNote]
  by_cases hs : noteStartSample ev < N
  · rw [if_pos hs]
    obtain ⟨env, henv2, _⟩ := makeEnvelope_some _ ev.dur (henv hs)
    rw [henv2]
    refine ⟨_, rfl, ?_⟩
    rw [addVec_length]
    · exact hb
    · rw [hb, synthVec_length]
      have he : min (noteNomEnd ev) N ≤ N := min_le_right _ _
      omega
  · rw [if_neg hs]
    exact ⟨b, rfl, hb⟩

lemma melodyRender_some (o : Osc) (N : ℕ) (evs : List NoteEv) (b : List ℚ)
    (hb : b.length = N)
    (hgood : ∀ ev ∈ evs, noteStartSample ev < N →
      6615 ≤ min (noteNomEnd ev) N - noteStartSample ev) :
    ∃ r, melodyRender o N evs b = some r ∧ r.length = N :=
  foldlM_some (renderNote o N) (fun a => a.length = N) evs b hb
    (fun b2 ev hev hb2 => renderNote_some o N b2 ev hb2 (hgood ev hev))

/-- Every event the melody sequencer emits for an integer duration leaves at
least a quarter second of local samples, enough for attack plus decay. -/
lemma melodyEvents_good (duration : ℕ) :
    ∀ ev ∈ melodyEvents duration, noteStartSample ev < num_samples duration →
      6615 ≤ min (noteNomEnd ev) (num_samples duration) - noteStartSample ev := by
  intro ev hev _
  obtain ⟨hlt, hQ4, hdur⟩ := outerLoop_events melody_notes duration melody_durs_Q4
    (duration + 1) 0 Q4_zero (melodyEvents duration) (melodyEvents_eq duration) ev hev
  have hdur2 : ∃ j : ℕ, 1 ≤ j ∧ ev.dur = (j : ℚ) / 4 := by
    simp only [List.mem_map] at hdur
    obtain ⟨nd, hnd, hnd2⟩ := hdur
    obtain ⟨j, hj1, hj⟩ := melody_durs nd hnd
    exact ⟨j, hj1, by rw [← hnd2, hj]⟩
  have hwin := emitted_window hlt hQ4 hdur2
  have he : noteEndSample duration ev = min (noteNomEnd ev) (num_samples duration) := rfl
  omega

/-- C5.  For every positive integer duration (the loops require an integer)
the synthesis succeeds and produces a buffer of exactly
`int(duration * 44100)` samples, and the time array maps sample index `i` to
elapsed time `i / 44100`. -/
theorem C5_buffer_length (o : Osc) (duration bpm : ℕ) (_hD : 0 < duration) :
    ∃ buf, generate_disco_audio o duration bpm = some buf ∧
      buf.length = (⌊(duration : ℚ) * 44100⌋).toNat ∧
      ∀ i (hi : i < (tArr (num_samples duration)).length),
        (tArr (num_samples duration)).get ⟨i, hi⟩ = (i : ℚ) / 44100 := by
  have hN : (⌊(duration : ℚ) * 44100⌋).toNat = num_samples duration := by
    have h : (duration : ℚ) * 44100 = ((num_samples duration : ℕ) : ℚ) := by
      show _ = ((sample_rate * duration : ℕ) : ℚ)
      push_cast [sample_rate]
      ring
    rw [h, Int.floor_natCast, Int.toNat_natCast]
  have h1 : (kickLoop o duration bpm (num_samples duration)
      (List.replicate (num_samples duration) 0)).length = num_samples duration :=
    kickLoop_length _ _ _ _ _ (List.length_replicate _ _)
  have h2 : (hihatLoop o duration bpm (num_samples duration)
      (kickLoop o duration bpm (num_samples duration)
        (List.replicate (num_samples duration) 0), 0)).1.length =
      num_samples duration :=
    hihatLoop_length _ _ _ _ _ h1
  obtain ⟨r, hr, hrlen⟩ := melodyRender_some o (num_samples duration)
    (melodyEvents duration) _ h2 (melodyEvents_good duration)
  refine ⟨normalize (bassRender o (num_samples duration) (bassEvents duration) r),
    ?_, ?_, ?_⟩
  · rw [generate_disco_audio, hr]
  · rw [hN, normalize_length, bassRender_length _ _ _ _ hrlen]
  · intro i hi
    rw [List.get_eq_getElem]
    simp only [tArr, List.getElem_map, List.getElem_range, tQ, sample_rate]
    norm_num

/-- Witness for C5 at duration 1 s: the buffer has 44100 samples. -/
theorem C5_buffer_length_witness :
    ∃ buf, generate_disco_audio osc0 1 120 = some buf ∧
      buf.length = (⌊(1 : ℚ) * 44100⌋).toNat ∧
      ∀ i (hi : i < (tArr (num_samples 1)).length),
        (tArr (num_samples 1)).get ⟨i, hi⟩ = (i : ℚ) / 44100 :=
  C5_buffer_length osc0 1 120 (by norm_num)

/-! ### Concrete sequencer runs at duration 1 (for witnesses and C9) -/

lemma melody_outer_one :
    outerLoop melody_notes ((1 : ℕ) : ℚ) 1 0 = some
      [⟨262, 1/4, 0⟩, ⟨294, 1/4, 1/4⟩, ⟨330, 1/4, 1/2⟩, ⟨349, 1/4, 3/4⟩] := by
  norm_num [outerLoop, innerPass, melody_notes]

lemma bass_outer_one :
    outerLoop bass_notes ((1 : ℕ) : ℚ) 1 0 = some
      [⟨110, 1/2, 0⟩, ⟨123, 1/2, 1/2⟩] := by
  norm_num [outerLoop, innerPass, bass_notes]

lemma melodyEvents_one :
    melodyEvents 1 =
      [⟨262, 1/4, 0⟩, ⟨294, 1/4, 1/4⟩, ⟨330, 1/4, 1/2⟩, ⟨349, 1/4, 3/4⟩] := by
  rw [melodyEvents]
  norm_num [outerLoop, innerPass, melody_notes]

lemma bassEvents_one :
    bassEvents 1 = [⟨110, 1/2, 0⟩, ⟨123, 1/2, 1/2⟩] := by
  rw [bassEvents]
  norm_num [outerLoop, innerPass, bass_notes]

/-! ### Witnesses for C4 and C6 -/

/-- Witness for C4 at duration 1, on the first emitted melody note. -/
theorem C4_melody_envelope_witness :
    ∃ env,
      makeEnvelope
        (noteEndSample 1 ⟨262, 1/4, 0⟩ - noteStartSample ⟨262, 1/4, 0⟩)
        (NoteEv.dur ⟨262, 1/4, 0⟩) = some env ∧
      env.length =
        noteEndSample 1 ⟨262, 1/4, 0⟩ - noteStartSample ⟨262, 1/4, 0⟩ :=
  C4_melody_envelope 1 1 _ melody_outer_one ⟨262, 1/4, 0⟩
    (List.mem_cons_self _ _)

/-- Witness for C6 at duration 1, on the first emitted melody note. -/
theorem C6_sequencer_emission_bounds_witness :
    NoteEv.start ⟨262, 1/4, 0⟩ < ((1 : ℕ) : ℚ) ∧
    noteEndSample 1 ⟨262, 1/4, 0⟩ ≤ num_samples 1 :=
  C6_sequencer_emission_bounds 1 1 _ _ melody_outer_one bass_outer_one
    ⟨262, 1/4, 0⟩ (Or.inl (List.mem_cons_self _ _))

/-! ### Claim C9: the pipeline is not a function of the declared inputs -/

lemma map_range_const (f : ℕ → ℚ) (c : ℚ) (h : ∀ k, f k = c) :
    ∀ n : ℕ, (List.range n).map f = List.replicate n c := by
  intro n
  induction n with
  | zero => rfl
  | succ m ih =>
    rw [List.range_succ, List.map_append, ih, List.map_singleton, h,
      List.replicate_succ']

lemma kickVec_zero {o : Osc} (hs : ∀ x, o.sin x = 0) (s e : ℕ) :
    ∀ y ∈ kickVec o s e, y = 0 := by
  intro y hy
  simp only [kickVec, List.mem_map] at hy
  obtain ⟨k, _, rfl⟩ := hy
  rw [hs]
  ring

lemma bassVec_zero {o : Osc} (hs : ∀ x, o.sin x = 0) (freq : ℚ) (s n : ℕ) :
    ∀ y ∈ bassVec o freq s n, y = 0 := by
  intro y hy
  simp only [bassVec, List.mem_map] at hy
  obtain ⟨k, _, rfl⟩ := hy
  rw [hs]
  ring

lemma synthVec_zero {o : Osc} (hs : ∀ x, o.sin x = 0) (freq : ℚ) (s n : ℕ)
    (env : List ℚ) : ∀ y ∈ synthVec o freq s n env, y = 0 := by
  intro y hy
  simp only [synthVec, List.mem_map] at hy
  obtain ⟨k, _, rfl⟩ := hy
  rw [hs]
  ring

/-- With a zero sine the kick loop never changes the buffer. -/
lemma kickLoop_fixed {o : Osc} (hs : ∀ x, o.sin x = 0)
    (duration bpm N : ℕ) (a0 : List ℚ) : kickLoop o duration bpm N a0 = a0 := by
  refine foldl_fixed _ _ _ ?_
  intro a i _
  dsimp only
  split_ifs with hg
  · exact addVec_zero _ _ _ (kickVec_zero hs _ _)
  · rfl

/-- With a zero sine the bass render never changes the buffer. -/
lemma bassRender_fixed {o : Osc} (hs : ∀ x, o.sin x = 0)
    (N : ℕ) (evs : List NoteEv) (b : List ℚ) : bassRender o N evs b = b := by
  refine foldl_fixed _ _ _ ?_
  intro a ev _
  rw [renderBassNote]
  split_ifs with hg
  · exact addVec_zero _ _ _ (bassVec_zero hs _ _ _)
  · rfl

lemma foldlM_fixed {α β : Type} (f : β → α → Option β) :
    ∀ (l : List α) (b : β), (∀ b2 a, a ∈ l → f b2 a = some b2) →
      List.foldlM f b l = some b
  | [], _, _ => rfl
  | a :: l, b, hf => by
    rw [List.foldlM_cons, hf b a (List.mem_cons_self _ _)]
    simpa using foldlM_fixed f l b
      (fun b2 x hx => hf b2 x (List.mem_cons_of_mem _ hx))

/-- With a zero sine a melody note whose envelope construction succeeds
renders without changing the buffer. -/
lemma renderNote_fixed {o : Osc} (hs : ∀ x, o.sin x = 0) (N : ℕ) (b : List ℚ)
    (ev : NoteEv)
    (henv : noteStartSample ev < N →
      6615 ≤ min (noteNomEnd ev) N - noteStartSample ev) :
    renderNote o N b ev = some b := by
  rw [renderNote]
  by_cases hsN : noteStartSample ev < N
  · rw [if_pos hsN]
    obtain ⟨env, he, _⟩ := makeEnvelope_some _ ev.dur (henv hsN)
    rw [he]
    show some (addVec b (noteStartSample ev)
      (synthVec o ev.freq (noteStartSample ev)
        (min (noteNomEnd ev) N - noteStartSample ev) env)) = some b
    rw [addVec_zero _ _ _ (synthVec_zero hs _ _ _ _)]
  · rw [if_neg hsN]

lemma melodyRender_fixed {o : Osc} (hs : ∀ x, o.sin x = 0) (N : ℕ)
    (evs : List NoteEv) (b : List ℚ)
    (hgood : ∀ ev ∈ evs, noteStartSample ev < N →
      6615 ≤ min (noteNomEnd ev) N - noteStartSample ev) :
    melodyRender o N evs b = some b :=
  foldlM_fixed _ evs b
    (fun b2 ev hev => renderNote_fixed hs N b2 ev (hgood ev hev))

lemma num_samples_one : num_samples 1 = 44100 := rfl

/-- The run with all-zero noise draws produces the all-zero buffer. -/
lemma generate_osc0_one :
    generate_disco_audio osc0 1 120 = some (List.replicate 44100 0) := by
  have hs : ∀ x, osc0.sin x = 0 := fun _ => rfl
  have hn : ∀ j, osc0.normal j = 0 := fun _ => rfl
  have hhv : ∀ c s e, ∀ y ∈ hihatVec osc0 c s e, y = 0 := by
    intro c s e y hy
    simp only [hihatVec, List.mem_map] at hy
    obtain ⟨k, _, rfl⟩ := hy
    rw [hs, hn]
    ring
  have hh : (hihatLoop osc0 1 120 (num_samples 1)
      (List.replicate (num_samples 1) 0, 0)).1 =
      List.replicate (num_samples 1) 0 := by
    refine foldl_invariant
      (fun p : List ℚ × ℕ => p.1 = List.replicate (num_samples 1) 0) _ _ _ rfl ?_
    intro p i _ hp
    dsimp only
    split_ifs with hg
    · dsimp only
      rw [addVec_zero _ _ _ (hhv _ _ _), hp]
    · exact hp
  rw [generate_disco_audio]
  rw [kickLoop_fixed hs]
  rw [hh, melodyRender_fixed hs _ _ _ (melodyEvents_good 1)]
  show some (normalize (bassRender osc0 (num_samples 1) (bassEvents 1)
    (List.replicate (num_samples 1) 0))) = some (List.replicate 44100 0)
  rw [bassRender_fixed hs]
  rw [normalize]
  rw [maxAbs_replicate]
  norm_num [num_samples_one]

/-- The run with all-one noise draws produces a buffer that is 0.95 on the
hi-hat window and 0 elsewhere. -/
lemma generate_osc1_one :
    generate_disco_audio osc1 1 120 = some
      (List.replicate 22050 0 ++ List.replicate 4410 (19/20) ++
        List.replicate 17640 0) := by
  have hs : ∀ x, osc1.sin x = 0 := fun _ => rfl
  have hS0 : hihatStart 120 0 = 22050 := by rw [hihatStart_120]
  have hE0 : hihatEnd 120 0 = 26460 := by rw [hihatEnd_eq, hS0]
  have hc0 : hihatEnd 120 0 < num_samples 1 := by rw [hE0, num_samples_one]; omega
  have hc1 : ¬ (hihatEnd 120 1 < num_samples 1) := by
    rw [hihatEnd_eq, hihatStart_120, num_samples_one]
    omega
  have hvec : hihatVec osc1 0 (hihatStart 120 0) (hihatEnd 120 0) =
      List.replicate 4410 (1/5) := by
    rw [hihatVec, hS0, hE0]
    rw [show (26460 - 22050 : ℕ) = 4410 from rfl]
    refine map_range_const _ _ ?_ 4410
    intro k
    show ((0 : ℚ) * (3/20) + 1 * (1/5)) * 1 = 1/5
    norm_num
  have hB : (hihatLoop osc1 1 120 (num_samples 1)
      (List.replicate (num_samples 1) 0, 0)).1 =
      List.replicate 22050 0 ++ List.replicate 4410 (1/5) ++
        List.replicate 17640 0 := by
    rw [hihatLoop]
    rw [show (1 * 2 : ℕ) = 2 from rfl, show List.range 2 = [0, 1] from rfl,
      List.foldl_cons, List.foldl_cons, List.foldl_nil]
    dsimp only
    rw [if_pos hc0]
    dsimp only
    rw [if_neg hc1]
    dsimp only
    rw [hvec, hS0, num_samples_one, addVec_replicate _ _ _ _ (by omega)]
  have hmax : maxAbs (List.replicate 22050 (0:ℚ) ++ List.replicate 4410 (1/5) ++
      List.replicate 17640 0) = 1/5 := by
    rw [maxAbs_append, maxAbs_append, maxAbs_replicate, maxAbs_replicate,
      maxAbs_replicate]
    norm_num
  rw [generate_disco_audio]
  rw [kickLoop_fixed hs]
  rw [hB, melodyRender_fixed hs _ _ _ (melodyEvents_good 1)]
  show some (normalize (bassRender osc1 (num_samples 1) (bassEvents 1)
    (List.replicate 22050 0 ++ List.replicate 4410 (1/5) ++
      List.replicate 17640 0))) = _
  rw [bassRender_fixed hs]
  rw [normalize, hmax]
  rw [if_pos (by norm_num : (0:ℚ) < 1/5)]
  rw [List.map_append, List.map_append, List.map_replicate, List.map_replicate,
    List.map_replicate]
  norm_num

/-- C9 counterexample.  Two runs of the synthesis with identical duration,
tempo, sample rate, note tables and constants — and identical deterministic
numeric environment (`pi`, `sin`, `exp`) — produce different sample buffers
when the ambient random stream feeding the hi-hat noise differs, which is the
situation of two real runs: `np.random.normal` is called without a seed.  So
the waveform generation is not a function of the claim's listed inputs. -/
theorem C9_determinism_counterexample :
    osc0.pi = osc1.pi ∧ osc0.sin = osc1.sin ∧ osc0.exp = osc1.exp ∧
    generate_disco_audio osc0 1 120 ≠ generate_disco_audio osc1 1 120 := by
  refine ⟨rfl, rfl, rfl, ?_⟩
  rw [generate_osc0_one, generate_osc1_one]
  intro h
  have h2 := Option.some.inj h
  have hL : (List.replicate 44100 (0:ℚ))[22050]? = some 0 := by
    rw [List.getElem?_replicate, if_pos (by omega)]
  have hR : (List.replicate 22050 (0:ℚ) ++ List.replicate 4410 (19/20) ++
      List.replicate 17640 0)[22050]? = some (19/20) := by
    rw [List.getElem?_append, if_pos (by
      rw [List.length_append, List.length_replicate, List.length_replicate]
      omega)]
    rw [List.getElem?_append_right (by rw [List.length_replicate])]
    rw [List.length_replicate, show (22050 - 22050 : ℕ) = 0 from rfl,
      List.getElem?_replicate, if_pos (by omega)]
  rw [h2, hR] at hL
  exact absurd (Option.some.inj hL) (by norm_num)

/-- C9 amended.  The synthesis is deterministic once the noise draws are fixed
alongside the declared inputs: runs with equal duration, tempo, and numeric
environment including the random stream produce identical buffers. -/
theorem C9_deterministic_given_noise (o o2 : Osc) (duration bpm : ℕ)
    (hpi : o.pi = o2.pi) (hsin : o.sin = o2.sin) (hexp : o.exp = o2.exp)
    (hnormal : o.normal = o2.normal) :
    generate_disco_audio o duration bpm = generate_disco_audio o2 duration bpm := by
  cases o
  cases o2
  cases hpi
  cases hsin
  cases hexp
  cases hnormal
  rfl

/-- Witness for the amended C9 at the concrete environment `osc0`. -/
theorem C9_deterministic_given_noise_witness :
    generate_disco_audio osc0 1 120 = generate_disco_audio osc0 1 120 :=
  C9_deterministic_given_noise osc0 osc0 1 120 rfl rfl rfl rfl

end PushDisco
